import Mathlib

/-!
Verification of the path-translation and playback-session engine of the
jellyfin-external-player daemon (`main.go`).

Go strings are byte strings; we model them as `List Char`, with each `Char`
standing for one byte (all patterns and paths of interest are ASCII, where
Go's byte indexing and our character indexing coincide).  Go `float64`
values carried through the session state (positions, durations) are
modelled as rationals; `int` values as `Int`.
-/

/-- A Go string, modelled as a list of characters (bytes). -/
abbrev Str := List Char

/-- Converts a Lean string literal to the `Str` model. -/
def str (s : String) : Str := s.toList

/-- Go `strings.HasPrefix(s, pre)`. -/
def goStartsWith : Str → Str → Bool
  | _, [] => true
  | [], _ :: _ => false
  | c :: s, p :: ps => c = p && goStartsWith s ps

/-- Go `strings.HasSuffix(s, suf)`. -/
def goEndsWith (s suf : Str) : Bool := goStartsWith s.reverse suf.reverse

/-- Loop of `strings.ReplaceAll` for a non-empty pattern `o :: otl`:
replaces non-overlapping occurrences left to right. -/
def strReplaceLoop (o : Char) (otl new : Str) : Str → Str
  | [] => []
  | c :: rest =>
    if goStartsWith (c :: rest) (o :: otl) then
      new ++ strReplaceLoop o otl new (rest.drop otl.length)
    else
      c :: strReplaceLoop o otl new rest
termination_by s => s.length
decreasing_by
  · simp only [List.length_cons]
    have := List.length_drop otl.length rest
    omega
  · simp

/-- Go `strings.ReplaceAll(s, old, new)`.  An empty `old` inserts `new`
before every character and at the end, as in Go. -/
def strReplaceAll (s old new : Str) : Str :=
  match old with
  | [] => new ++ s.flatMap (fun c => c :: new)
  | o :: otl => strReplaceLoop o otl new s

/-- The final separator normalization of `translatePath`:
`strings.ReplaceAll(result, "/", "\\")`. -/
def backslashed (s : Str) : Str := strReplaceAll s (str "/") (str "\\")

/-- `PathMapping` from `main.go`: `ptype` is the Go field `Type`
("prefix", "wildcard" or "regex"), `pmatch` the field `Match`, `replace`
the field `Replace` (renamed because `Type` and `match` are reserved in
Lean). -/
structure PathMapping where
  ptype : Str
  pmatch : Str
  replace : Str

/-- `PlayerConfig` from `main.go`. -/
structure PlayerConfig where
  name : Str
  path : Str
  args : List Str

/-- `PlaylistItem` from `main.go`. -/
structure PlaylistItem where
  path : Str
  itemId : Str

/-- `Config` from `main.go` (the `Players` Go map is modelled as an
association list). -/
structure Config where
  port : Int
  player : Str
  players : List (Str × PlayerConfig)
  pathMappings : List PathMapping
  urlEncode : Bool
  serverURLs : List Str
  serverURLsSet : Bool
  debug : Bool

/-- `defaultConfig` from `main.go`, including its two built-in empty
prefix path mappings. -/
def defaultConfig : Config :=
  { port := 9998
    player := str "mpv"
    players :=
      [ (str "mpv", { name := str "mpv", path := str "mpv", args := [str "--fs"] })
      , (str "vlc", { name := str "VLC", path := str "vlc", args := [str "--fullscreen"] }) ]
    pathMappings :=
      [ { ptype := str "prefix", pmatch := [], replace := [] }
      , { ptype := str "prefix", pmatch := [], replace := [] } ]
    urlEncode := false
    serverURLs := []
    serverURLsSet := false
    debug := false }

/-! ## Wildcard patterns

`wildcardToRegex` compiles a wildcard pattern into the regular expression
`^ … (.*)$` where `**` becomes `(.*?)`, `*` becomes `([^/]*)`, and every
other character is emitted literally (regex metacharacters escaped, which
does not change which character they match).  We embed the compiled
pattern as a token list and give its matching semantics directly,
following Go's leftmost-first submatch semantics: `([^/]*)` is greedy over
non-`/` characters, `(.*?)` is lazy over non-newline characters (Go `.`
does not match a newline), and the trailing `(.*)` remainder capture can
only match a newline-free tail. -/

/-- One token of the regex built by `wildcardToRegex`. -/
inductive RTok where
  /-- a literally-matched character -/
  | lit (c : Char)
  /-- `([^/]*)` produced from `*` -/
  | star
  /-- `(.*?)` produced from `**` -/
  | dstar
deriving DecidableEq

/-- The token reading of `wildcardToRegex` from `main.go`: `**` (checked
first) becomes the lazy any-segment token, `*` the no-separator token, and
any other character matches itself. -/
def wildcardToTokens : Str → List RTok
  | [] => []
  | '*' :: '*' :: rest => RTok.dstar :: wildcardToTokens rest
  | '*' :: rest => RTok.star :: wildcardToTokens rest
  | c :: rest => RTok.lit c :: wildcardToTokens rest

/-- Candidate splits for `([^/]*)`: prefixes made of non-`/` characters,
longest first (the group is greedy). -/
def starSplits (s : Str) : List (Str × Str) :=
  ((List.range ((s.takeWhile (fun c => c ≠ '/')).length + 1)).reverse).map
    (fun i => (s.take i, s.drop i))

/-- Candidate splits for `(.*?)`: prefixes made of non-newline characters,
shortest first (the group is lazy). -/
def dstarSplits (s : Str) : List (Str × Str) :=
  (List.range ((s.takeWhile (fun c => c ≠ '\n')).length + 1)).map
    (fun i => (s.take i, s.drop i))

/-- Matching of the token list against a path, anchored at the start; on
success returns the capture list (one capture per `*`/`**`, in order) and
the remainder captured by the trailing `(.*)` (which, like Go's `.`,
cannot contain a newline).  The first split in backtracking preference
order wins, as in Go's `FindStringSubmatch`. -/
def runToks : List RTok → Str → Option (List Str × Str)
  | [], s => if s.any (fun c => c = '\n') then none else some ([], s)
  | RTok.lit c :: ts, s =>
    match s with
    | [] => none
    | c2 :: rest => if c2 = c then runToks ts rest else none
  | RTok.star :: ts, s =>
    (starSplits s).findSome? (fun pr =>
      match runToks ts pr.2 with
      | some (caps, rem) => some (pr.1 :: caps, rem)
      | none => none)
  | RTok.dstar :: ts, s =>
    (dstarSplits s).findSome? (fun pr =>
      match runToks ts pr.2 with
      | some (caps, rem) => some (pr.1 :: caps, rem)
      | none => none)

/-- The placeholder string `fmt.Sprintf("\x7b%d\x7d", i)` used for
substituting capture `i` into the replacement. -/
def placeholder (i : Nat) : Str := '\x7b' :: Nat.toDigits 10 i ++ ['\x7d']

/-- The substitution loop of the wildcard branch of `applyMapping`:
`result = strings.ReplaceAll(result, "\x7bi\x7d", matches[i])` for each
captured group in order, starting at index `i`. -/
def substLoop (result : Str) (caps : List Str) (i : Nat) : Str :=
  match caps with
  | [] => result
  | c :: rest => substLoop (strReplaceAll result (placeholder i) c) rest (i + 1)

/-! ## The regex rule engine

The `regex` mapping branch calls Go's `regexp.Compile`,
`Regexp.MatchString` and `Regexp.ReplaceAllString`.  We model the
commonly-used subset of Go's RE2 syntax: literals, escapes, character
classes, `.`, anchors `^` `$` `\A` `\z` `\b` `\B`, grouping, alternation,
and the quantifiers `*` `+` `?` `\x7bn\x7d` `\x7bn,\x7d` `\x7bn,m\x7d`
with optional lazy `?`, with Go's leftmost-first submatch semantics.
Syntax errors (unclosed class or group, dangling or nested quantifier,
invalid escape, stray `)`) make compilation return `none`, mirroring the
`err != nil` path of the Go code. -/

/-- One item of a character class: an inclusive range, or (for a negated
class escape such as `\D` appearing inside a class) the complement of a
range set. -/
inductive CItem where
  | rng (lo hi : Char)
  | nrngs (rs : List (Char × Char))
deriving DecidableEq

/-- Abstract syntax of the modelled Go regular expressions. -/
inductive GoRe where
  | emptyS
  | lit (c : Char)
  | anyCh
  | cls (neg : Bool) (items : List CItem)
  | bol
  | eol
  | wordB
  | nwordB
  | seq (a b : GoRe)
  | alt (a b : GoRe)
  | grp (idx : Nat) (r : GoRe)
  | ncg (r : GoRe)
  | star (greedy : Bool) (r : GoRe)
  | plus (greedy : Bool) (r : GoRe)
  | quest (greedy : Bool) (r : GoRe)
deriving DecidableEq

/-- Result of parsing one escape sequence. -/
inductive EscAtom where
  | ch (c : Char)
  | clsE (neg : Bool) (rs : List (Char × Char))
  | aBol
  | aEol
  | aWordB
  | aNWordB

/-- Ranges of `\d`. -/
def digitRanges : List (Char × Char) := [('0', '9')]

/-- Ranges of `\w` (RE2: `[0-9A-Za-z_]`). -/
def wordRanges : List (Char × Char) :=
  [('0', '9'), ('A', 'Z'), ('_', '_'), ('a', 'z')]

/-- Ranges of `\s` (RE2: `[\t\n\f\r ]`). -/
def spaceRanges : List (Char × Char) :=
  [(Char.ofNat 9, Char.ofNat 10), (Char.ofNat 12, Char.ofNat 13), (' ', ' ')]

/-- Value of a hexadecimal digit. -/
def hexDigit (c : Char) : Option Nat :=
  if '0' ≤ c ∧ c ≤ '9' then some (c.toNat - 48)
  else if 'a' ≤ c ∧ c ≤ 'f' then some (c.toNat - 87)
  else if 'A' ≤ c ∧ c ≤ 'F' then some (c.toNat - 55)
  else none

/-- Value of an octal digit. -/
def octDigit (c : Char) : Option Nat :=
  if '0' ≤ c ∧ c ≤ '7' then some (c.toNat - 48) else none

/-- Parses the escape sequence following a backslash.  `inCls` is true
inside a character class, where the anchor escapes are not modelled.
Unknown alphanumeric escapes are errors, as in RE2. -/
def parseEscape (s : Str) (inCls : Bool) : Option (EscAtom × Str) :=
  match s with
  | [] => none
  | c :: rest =>
    if c = 'd' then some (EscAtom.clsE false digitRanges, rest)
    else if c = 'D' then some (EscAtom.clsE true digitRanges, rest)
    else if c = 'w' then some (EscAtom.clsE false wordRanges, rest)
    else if c = 'W' then some (EscAtom.clsE true wordRanges, rest)
    else if c = 's' then some (EscAtom.clsE false spaceRanges, rest)
    else if c = 'S' then some (EscAtom.clsE true spaceRanges, rest)
    else if c = 'n' then some (EscAtom.ch '\n', rest)
    else if c = 't' then some (EscAtom.ch '\t', rest)
    else if c = 'r' then some (EscAtom.ch '\r', rest)
    else if c = 'f' then some (EscAtom.ch (Char.ofNat 12), rest)
    else if c = 'v' then some (EscAtom.ch (Char.ofNat 11), rest)
    else if c = 'a' then some (EscAtom.ch (Char.ofNat 7), rest)
    else if c = 'A' then if inCls then none else some (EscAtom.aBol, rest)
    else if c = 'z' then if inCls then none else some (EscAtom.aEol, rest)
    else if c = 'b' then if inCls then none else some (EscAtom.aWordB, rest)
    else if c = 'B' then if inCls then none else some (EscAtom.aNWordB, rest)
    else if c = 'x' then
      match rest with
      | '\x7b' :: r2 =>
        let hs := r2.takeWhile (fun h => (hexDigit h).isSome)
        if hs = [] then none
        else
          match r2.drop hs.length with
          | '\x7d' :: r3 =>
            let v := hs.foldl (fun n h => n * 16 + (hexDigit h).getD 0) 0
            if v ≤ 0x10FFFF then some (EscAtom.ch (Char.ofNat v), r3) else none
          | _ => none
      | h1 :: h2 :: r2 =>
        match hexDigit h1, hexDigit h2 with
        | some v1, some v2 => some (EscAtom.ch (Char.ofNat (v1 * 16 + v2)), r2)
        | _, _ => none
      | _ => none
    else
      match octDigit c with
      | some d1 =>
        match rest with
        | c2 :: c3 :: r2 =>
          match octDigit c2, octDigit c3 with
          | some d2, some d3 => some (EscAtom.ch (Char.ofNat (d1 * 64 + d2 * 8 + d3)), r2)
          | some d2, none => some (EscAtom.ch (Char.ofNat (d1 * 8 + d2)), c3 :: r2)
          | none, _ => some (EscAtom.ch (Char.ofNat d1), c2 :: c3 :: r2)
        | [c2] =>
          match octDigit c2 with
          | some d2 => some (EscAtom.ch (Char.ofNat (d1 * 8 + d2)), [])
          | none => some (EscAtom.ch (Char.ofNat d1), [c2])
        | [] => some (EscAtom.ch (Char.ofNat d1), [])
      | none =>
        if c.isAlphanum then none else some (EscAtom.ch c, rest)

/-- Parses one character-class endpoint (a plain or escaped character, or
a class escape). -/
def clsEndpoint (s : Str) : Option (EscAtom × Str) :=
  match s with
  | [] => none
  | '\\' :: rest => parseEscape rest true
  | c :: rest => some (EscAtom.ch c, rest)

/-- Parses the body of a character class after `[` (and after a possible
`^`), until the closing `]`.  A `]` in first position is a literal, an
unclosed class is an error, and `x-y` ranges with reversed endpoints are
errors, as in Go. -/
def parseClsBody (fuel : Nat) (s : Str) (acc : List CItem) (first : Bool) :
    Option (List CItem × Str) :=
  match fuel, s with
  | 0, _ => none
  | _, [] => none
  | fuel + 1, c0 :: rest0 =>
    if c0 = ']' ∧ ¬first then some (acc.reverse, rest0)
    else
      match clsEndpoint (c0 :: rest0) with
      | some (EscAtom.ch c, r1) =>
        (match r1 with
         | '-' :: d :: _ =>
           if d = ']' then parseClsBody fuel r1 (CItem.rng c c :: acc) false
           else
             match clsEndpoint (r1.drop 1) with
             | some (EscAtom.ch c2, r2) =>
               if c ≤ c2 then parseClsBody fuel r2 (CItem.rng c c2 :: acc) false else none
             | _ => none
         | _ => parseClsBody fuel r1 (CItem.rng c c :: acc) false)
      | some (EscAtom.clsE neg rs, r1) =>
        parseClsBody fuel r1
          ((if neg then [CItem.nrngs rs] else rs.map (fun p => CItem.rng p.1 p.2)) ++ acc)
          false
      | _ => none

/-- Parses a character class after the opening `[`. -/
def parseCls (s : Str) : Option (GoRe × Str) :=
  match s with
  | '^' :: rest =>
    (parseClsBody (rest.length + 1) rest [] true).map
      (fun pr => (GoRe.cls true pr.1, pr.2))
  | _ =>
    (parseClsBody (s.length + 1) s [] true).map
      (fun pr => (GoRe.cls false pr.1, pr.2))

/-- Parses a non-empty run of decimal digits. -/
def parseDigits (s : Str) : Option (Nat × Str) :=
  let ds := s.takeWhile Char.isDigit
  if ds = [] then none
  else some (ds.foldl (fun n c => n * 10 + (c.toNat - 48)) 0, s.drop ds.length)

/-- Parses a repetition specifier `\x7bn\x7d`, `\x7bn,\x7d` or
`\x7bn,m\x7d` (returns `none` when the braces do not form one, in which
case Go treats the `\x7b` as a literal). -/
def parseRepSpec (s : Str) : Option (Nat × Option Nat × Str) :=
  match s with
  | '\x7b' :: rest =>
    match parseDigits rest with
    | none => none
    | some (n, r1) =>
      match r1 with
      | '\x7d' :: r2 => some (n, some n, r2)
      | ',' :: r2 =>
        (match r2 with
         | '\x7d' :: r3 => some (n, none, r3)
         | _ =>
           match parseDigits r2 with
           | some (m, '\x7d' :: r3) => some (n, some m, r3)
           | _ => none)
      | _ => none
  | _ => none

/-- True when the input starts with a repetition operator (used to reject
nested repetitions such as `a**`, which Go refuses). -/
def isQuantStart (s : Str) : Bool :=
  match s with
  | '*' :: _ => true
  | '+' :: _ => true
  | '?' :: _ => true
  | '\x7b' :: _ => (parseRepSpec s).isSome
  | _ => false

/-- `n` mandatory copies of `r` in sequence. -/
def repCopies : Nat → GoRe → GoRe
  | 0, _ => GoRe.emptyS
  | n + 1, r => GoRe.seq r (repCopies n r)

/-- `n` nested optional copies of `r` (for the `\x7bn,m\x7d` upper part). -/
def optCopies (greedy : Bool) : Nat → GoRe → GoRe
  | 0, _ => GoRe.emptyS
  | n + 1, r => GoRe.quest greedy (GoRe.seq r (optCopies greedy n r))

/-- Consumes an optional lazy marker `?` after a quantifier and rejects a
following nested repetition operator. -/
def finishQuant (mk : Bool → GoRe) (rest : Str) : Option (GoRe × Str) :=
  let p : Bool × Str :=
    match rest with
    | '?' :: r2 => (false, r2)
    | _ => (true, rest)
  if isQuantStart p.2 then none else some (mk p.1, p.2)

/-- Applies an optional quantifier following a parsed atom.  Repeat counts
above 1000 are errors, as in Go. -/
def parseQuant (r : GoRe) (s : Str) : Option (GoRe × Str) :=
  match s with
  | '*' :: rest => finishQuant (fun gr => GoRe.star gr r) rest
  | '+' :: rest => finishQuant (fun gr => GoRe.plus gr r) rest
  | '?' :: rest => finishQuant (fun gr => GoRe.quest gr r) rest
  | '\x7b' :: _ =>
    (match parseRepSpec s with
     | none => some (r, s)
     | some (n, m, rest) =>
       if n > 1000 then none
       else
         match m with
         | some mm =>
           if mm > 1000 ∨ mm < n then none
           else finishQuant (fun gr => GoRe.seq (repCopies n r) (optCopies gr (mm - n) r)) rest
         | none => finishQuant (fun gr => GoRe.seq (repCopies n r) (GoRe.star gr r)) rest)
  | _ => some (r, s)

mutual

/-- Parses an alternation (`|`-separated sequence of concatenations). -/
def parseAlt (fuel : Nat) (s : Str) (g : Nat) : Option (GoRe × Str × Nat) :=
  match fuel with
  | 0 => none
  | fuel + 1 =>
    match parseSeq fuel s g with
    | none => none
    | some (r, s1, g1) => parseAltRest fuel r s1 g1
termination_by structural fuel

/-- Parses the remaining `|`-branches of an alternation. -/
def parseAltRest (fuel : Nat) (racc : GoRe) (s : Str) (g : Nat) :
    Option (GoRe × Str × Nat) :=
  match fuel with
  | 0 => none
  | fuel + 1 =>
    match s with
    | '|' :: rest =>
      (match parseSeq fuel rest g with
       | none => none
       | some (r2, s2, g2) => parseAltRest fuel (GoRe.alt racc r2) s2 g2)
    | _ => some (racc, s, g)
termination_by structural fuel

/-- Parses a (possibly empty) concatenation, stopping at `|`, `)` or the
end of the input. -/
def parseSeq (fuel : Nat) (s : Str) (g : Nat) : Option (GoRe × Str × Nat) :=
  match fuel with
  | 0 => none
  | fuel + 1 =>
    match s with
    | [] => some (GoRe.emptyS, s, g)
    | '|' :: _ => some (GoRe.emptyS, s, g)
    | ')' :: _ => some (GoRe.emptyS, s, g)
    | _ =>
      match parseRep fuel s g with
      | none => none
      | some (r, s1, g1) =>
        match parseSeq fuel s1 g1 with
        | none => none
        | some (r2, s2, g2) => some (GoRe.seq r r2, s2, g2)
termination_by structural fuel

/-- Parses one atom with its optional quantifier. -/
def parseRep (fuel : Nat) (s : Str) (g : Nat) : Option (GoRe × Str × Nat) :=
  match fuel with
  | 0 => none
  | fuel + 1 =>
    match parseAtom fuel s g with
    | none => none
    | some (r, s1, g1) =>
      match parseQuant r s1 with
      | none => none
      | some (r2, s2) => some (r2, s2, g1)
termination_by structural fuel

/-- Parses one atom: a group, class, escape, anchor, `.` or a literal.
A quantifier with no operand and an unmatched `(` are errors, as in Go. -/
def parseAtom (fuel : Nat) (s : Str) (g : Nat) : Option (GoRe × Str × Nat) :=
  match fuel with
  | 0 => none
  | fuel + 1 =>
    match s with
    | [] => none
    | '(' :: '?' :: ':' :: rest =>
      (match parseAlt fuel rest g with
       | some (r, ')' :: rest2, g2) => some (GoRe.ncg r, rest2, g2)
       | _ => none)
    | '(' :: '?' :: _ => none
    | '(' :: rest =>
      (match parseAlt fuel rest (g + 1) with
       | some (r, ')' :: rest2, g2) => some (GoRe.grp g r, rest2, g2)
       | _ => none)
    | ')' :: _ => none
    | '[' :: rest =>
      (match parseCls rest with
       | some (r, rest2) => some (r, rest2, g)
       | none => none)
    | '\\' :: rest =>
      (match parseEscape rest false with
       | some (EscAtom.ch c, r2) => some (GoRe.lit c, r2, g)
       | some (EscAtom.clsE neg rs, r2) =>
         some (GoRe.cls neg (rs.map (fun p => CItem.rng p.1 p.2)), r2, g)
       | some (EscAtom.aBol, r2) => some (GoRe.bol, r2, g)
       | some (EscAtom.aEol, r2) => some (GoRe.eol, r2, g)
       | some (EscAtom.aWordB, r2) => some (GoRe.wordB, r2, g)
       | some (EscAtom.aNWordB, r2) => some (GoRe.nwordB, r2, g)
       | none => none)
    | '.' :: rest => some (GoRe.anyCh, rest, g)
    | '^' :: rest => some (GoRe.bol, rest, g)
    | '$' :: rest => some (GoRe.eol, rest, g)
    | '*' :: _ => none
    | '+' :: _ => none
    | '?' :: _ => none
    | '\x7b' :: rest =>
      if (parseRepSpec s).isSome then none else some (GoRe.lit '\x7b', rest, g)
    | c :: rest => some (GoRe.lit c, rest, g)
termination_by structural fuel

end

/-- Parser fuel: generously larger than the number of parser steps for an
input of this length. -/
def parseFuel (s : Str) : Nat := 16 * (s.length + 4)

/-- Model of Go `regexp.Compile`: `none` is the `err != nil` case. -/
def regexpCompile (pat : Str) : Option GoRe :=
  match parseAlt (parseFuel pat) pat 1 with
  | some (r, [], _) => some r
  | _ => none

/-- Captured group spans: (group index, start, end); the most recent
binding of a group comes first. -/
abbrev Caps := List (Nat × Nat × Nat)

/-- RE2 word character (`[0-9A-Za-z_]`). -/
def isWordChar (c : Char) : Bool := c.isAlphanum || c = '_'

/-- Whether position `i` of `s` holds a word character. -/
def isWordAt (s : Str) (i : Nat) : Bool :=
  match s[i]? with
  | some c => isWordChar c
  | none => false

/-- RE2 `\b`: a word/non-word transition at `pos`. -/
def wordBoundaryAt (s : Str) (pos : Nat) : Bool :=
  (if pos = 0 then false else isWordAt s (pos - 1)) != isWordAt s pos

/-- Whether a character matches one class item. -/
def citemMatch (c : Char) : CItem → Bool
  | CItem.rng lo hi => lo ≤ c && c ≤ hi
  | CItem.nrngs rs => !(rs.any (fun p => p.1 ≤ c && c ≤ p.2))

/-- Whether a character matches a (possibly negated) class.  As in RE2, a
negated class matches a newline unless `\n` is among its members. -/
def clsMatch (neg : Bool) (items : List CItem) (c : Char) : Bool :=
  let m := items.any (citemMatch c)
  if neg then !m else m

/-- Size of a regex, used to bound the matcher's backtracking depth. -/
def reSize : GoRe → Nat
  | GoRe.emptyS => 1
  | GoRe.lit _ => 1
  | GoRe.anyCh => 1
  | GoRe.cls _ _ => 1
  | GoRe.bol => 1
  | GoRe.eol => 1
  | GoRe.wordB => 1
  | GoRe.nwordB => 1
  | GoRe.seq a b => reSize a + reSize b + 1
  | GoRe.alt a b => reSize a + reSize b + 1
  | GoRe.grp _ r => reSize r + 1
  | GoRe.ncg r => reSize r + 1
  | GoRe.star _ r => reSize r + 1
  | GoRe.plus _ r => reSize r + 1
  | GoRe.quest _ r => reSize r + 1

/-- Backtracking matcher in continuation style, exploring alternatives in
Go's leftmost-first preference order (greedy quantifiers try the longer
match first, lazy ones the shorter; `\|` prefers its left branch).  `.`
does not match a newline.  A repetition iteration must consume input, as
in RE2.  `fuel` bounds the recursion depth and is chosen large enough for
every search on the given input. -/
def reM (orig : Str) : Nat → GoRe → Nat → Caps → (Nat → Caps → Option (Nat × Caps)) →
    Option (Nat × Caps)
  | 0, _, _, _, _ => none
  | fuel + 1, re, pos, caps, k =>
    match re with
    | GoRe.emptyS => k pos caps
    | GoRe.lit c =>
      (match orig[pos]? with
       | some c2 => if c2 = c then k (pos + 1) caps else none
       | none => none)
    | GoRe.anyCh =>
      (match orig[pos]? with
       | some c2 => if c2 = '\n' then none else k (pos + 1) caps
       | none => none)
    | GoRe.cls neg items =>
      (match orig[pos]? with
       | some c2 => if clsMatch neg items c2 then k (pos + 1) caps else none
       | none => none)
    | GoRe.bol => if pos = 0 then k pos caps else none
    | GoRe.eol => if pos = orig.length then k pos caps else none
    | GoRe.wordB => if wordBoundaryAt orig pos then k pos caps else none
    | GoRe.nwordB => if wordBoundaryAt orig pos then none else k pos caps
    | GoRe.seq a b => reM orig fuel a pos caps (fun p c => reM orig fuel b p c k)
    | GoRe.alt a b =>
      (match reM orig fuel a pos caps k with
       | some r => some r
       | none => reM orig fuel b pos caps k)
    | GoRe.grp i r => reM orig fuel r pos caps (fun p c => k p ((i, pos, p) :: c))
    | GoRe.ncg r => reM orig fuel r pos caps k
    | GoRe.star g r =>
      if g then
        match reM orig fuel r pos caps
            (fun p c => if pos < p then reM orig fuel (GoRe.star g r) p c k else none) with
        | some res => some res
        | none => k pos caps
      else
        (match k pos caps with
         | some res => some res
         | none =>
           reM orig fuel r pos caps
             (fun p c => if pos < p then reM orig fuel (GoRe.star g r) p c k else none))
    | GoRe.plus g r => reM orig fuel r pos caps (fun p c => reM orig fuel (GoRe.star g r) p c k)
    | GoRe.quest g r =>
      if g then
        match reM orig fuel r pos caps k with
        | some res => some res
        | none => k pos caps
      else
        (match k pos caps with
         | some res => some res
         | none => reM orig fuel r pos caps k)

/-- Matcher fuel for a given regex and input. -/
def reFuel (re : GoRe) (s : Str) : Nat := 16 * (reSize re + 2) * (s.length + 2) + 64

/-- Attempts a match anchored at `pos`; returns the end position and the
captures of the first match in preference order. -/
def reMatchAtPos (re : GoRe) (s : Str) (pos : Nat) : Option (Nat × Caps) :=
  reM s (reFuel re s) re pos [] (fun p c => some (p, c))

/-- Finds the leftmost match starting at or after `start`: (start, end,
captures). -/
def reFindFrom (re : GoRe) (s : Str) (start : Nat) : Option (Nat × Nat × Caps) :=
  ((List.range (s.length + 1 - start)).map (fun i => i + start)).findSome?
    (fun ms => (reMatchAtPos re s ms).map (fun pc => (ms, pc.1, pc.2)))

/-- Go `Regexp.MatchString`. -/
def reMatchString (re : GoRe) (s : Str) : Bool := (reFindFrom re s 0).isSome

/-- The substring `s[st:en]`. -/
def strSlice (s : Str) (st en : Nat) : Str := (s.drop st).take (en - st)

/-- The most recent span recorded for group `i`. -/
def capLookup (caps : Caps) (i : Nat) : Option (Nat × Nat) :=
  match caps.find? (fun t => t.1 = i) with
  | some (_, st, en) => some (st, en)
  | none => none

/-- Expands one `$name` reference. -/
def expandName (name src : Str) (m0s m0e : Nat) (caps : Caps) : Str :=
  if name.all Char.isDigit then
    let i := name.foldl (fun n c => n * 10 + (c.toNat - 48)) 0
    if i = 0 then strSlice src m0s m0e
    else
      match capLookup caps i with
      | some (st, en) => strSlice src st en
      | none => []
  else []

/-- Fuel-driven loop of `expandTmpl`; every step consumes at least one
template character, so the caller's fuel always suffices. -/
def expandLoop (src : Str) (m0s m0e : Nat) (caps : Caps) : Nat → Str → Str
  | 0, rest => rest
  | fuel + 1, tmpl =>
    match tmpl with
    | [] => []
    | '$' :: '$' :: rest => '$' :: expandLoop src m0s m0e caps fuel rest
    | '$' :: '\x7b' :: rest =>
      let name := rest.takeWhile isWordChar
      (match name, rest.drop name.length with
       | _ :: _, '\x7d' :: r2 =>
         expandName name src m0s m0e caps ++ expandLoop src m0s m0e caps fuel r2
       | _, _ => '$' :: expandLoop src m0s m0e caps fuel ('\x7b' :: rest))
    | '$' :: rest =>
      let name := rest.takeWhile isWordChar
      (match name with
       | [] => '$' :: expandLoop src m0s m0e caps fuel rest
       | _ :: _ =>
         expandName name src m0s m0e caps ++
           expandLoop src m0s m0e caps fuel (rest.drop name.length))
    | c :: rest => c :: expandLoop src m0s m0e caps fuel rest

/-- Go `Regexp.Expand` template semantics: `$$` is a literal dollar,
`$name` / `$\x7bname\x7d` with a purely numeric name is a group reference
(`$0` the whole match), any other or out-of-range name expands to the
empty string, and an ill-formed reference leaves the `$` literal. -/
def expandTmpl (tmpl src : Str) (m0s m0e : Nat) (caps : Caps) : Str :=
  expandLoop src m0s m0e caps (tmpl.length + 1) tmpl

/-- Replacement loop of Go `Regexp.ReplaceAllString`: successive
non-overlapping leftmost matches; an empty match copies the next
character and resumes after it. -/
def reReplLoop (re : GoRe) (s tmpl : Str) : Nat → Nat → Str → Str
  | 0, pos, acc => acc ++ s.drop pos
  | fuel + 1, pos, acc =>
    match reFindFrom re s pos with
    | none => acc ++ s.drop pos
    | some (ms, me, caps) =>
      let acc2 := acc ++ strSlice s pos ms ++ expandTmpl tmpl s ms me caps
      if ms < me then reReplLoop re s tmpl fuel me acc2
      else
        match s[me]? with
        | some c => reReplLoop re s tmpl fuel (me + 1) (acc2 ++ [c])
        | none => acc2

/-- Go `Regexp.ReplaceAllString`. -/
def reReplaceAll (re : GoRe) (s tmpl : Str) : Str :=
  reReplLoop re s tmpl (s.length + 2) 0 []

/-! ## applyMapping and translatePath -/

/-- `applyMapping` from `main.go`: applies a single mapping to a path,
returning the transformed path and `true` on a match, or the original
path and `false` otherwise.  A pattern that fails to compile is logged
and treated as a non-match.  Unknown mapping types fall back to prefix
behavior. -/
def applyMapping (path : Str) (mapping : PathMapping) : Str × Bool :=
  if mapping.ptype = str "prefix" then
    if goStartsWith path mapping.pmatch then
      (mapping.replace ++ path.drop mapping.pmatch.length, true)
    else (path, false)
  else if mapping.ptype = str "wildcard" then
    match runToks (wildcardToTokens mapping.pmatch) path with
    | some (caps, remainder) =>
      let result := substLoop mapping.replace caps 1
      let result :=
        if remainder.length > 0 ∧ ¬goEndsWith result (str "/") ∧
            ¬goEndsWith result (str "\\") then
          result ++ str "/"
        else result
      (result ++ remainder, true)
    | none => (path, false)
  else if mapping.ptype = str "regex" then
    match regexpCompile mapping.pmatch with
    | none => (path, false)
    | some re =>
      if reMatchString re path then (reReplaceAll re path mapping.replace, true)
      else (path, false)
  else
    if goStartsWith path mapping.pmatch then
      (mapping.replace ++ path.drop mapping.pmatch.length, true)
    else (path, false)

/-- `translatePath` from `main.go`, with the configured mapping list made
an explicit argument: the first matching mapping's result — or, when none
matches, the path itself — with every forward slash then converted to a
backslash. -/
def translatePath (path : Str) (mappings : List PathMapping) : Str :=
  match mappings with
  | [] => backslashed path
  | m :: rest =>
    let r := applyMapping path m
    if r.2 then backslashed r.1 else translatePath path rest

/-- The rule-substitution stage of `translatePath` on its own (first
matching rule's substitution result, before the separator conversion);
used to state that the slash conversion happens once, after substitution. -/
def firstMatchResult (path : Str) (mappings : List PathMapping) : Str :=
  match mappings with
  | [] => path
  | m :: rest =>
    let r := applyMapping path m
    if r.2 then r.1 else firstMatchResult path rest

/-! ## Session state, progress reports, playlist sequencer -/

/-- Go `int(x)` conversion of a `float64`: truncation toward zero. -/
def goTrunc (q : ℚ) : Int := if 0 ≤ q then Rat.floor q else Rat.ceil q

/-- The mutable player-session fields of `main.go` that the progress
reporters read under `currentPlayerMu`. -/
structure EmbySession where
  playerItemId : Str
  lastPosition : ℚ
  videoDuration : ℚ
  embyServerURL : Str
  embyUserId : Str
  embyToken : Str

/-- The network call built by `reportPlaybackStart`. -/
structure StartReport where
  url : Str
  itemId : Str

/-- `reportPlaybackStart` from `main.go`: reads itemId, server URL and
token from the session; skips (returns `none`, no network call) when any
of the three is empty, otherwise posts to `serverURL + "/Sessions/Playing"`. -/
def reportPlaybackStart (s : EmbySession) : Option StartReport :=
  let itemId := s.playerItemId
  let serverURL := s.embyServerURL
  let token := s.embyToken
  if itemId = [] ∨ serverURL = [] ∨ token = [] then none
  else some { url := serverURL ++ str "/Sessions/Playing", itemId := itemId }

/-- The network call built by `reportPlaybackStopped`. -/
structure StopReport where
  url : Str
  itemId : Str
  positionTicks : Int

/-- `reportPlaybackStopped` from `main.go`: reads itemId, last position,
server URL and token; skips when itemId, server URL or token is empty,
otherwise posts the position converted to ticks (`int64(position * 1e7)`,
truncated) to `serverURL + "/Sessions/Playing/Stopped"`. -/
def reportPlaybackStopped (s : EmbySession) : Option StopReport :=
  let itemId := s.playerItemId
  let position := s.lastPosition
  let serverURL := s.embyServerURL
  let token := s.embyToken
  if itemId = [] ∨ serverURL = [] ∨ token = [] then none
  else
    some { url := serverURL ++ str "/Sessions/Playing/Stopped"
           itemId := itemId
           positionTicks := goTrunc (position * 10000000) }

/-- The fields of `getMpvPlaybackInfo`'s result. -/
structure MpvStatus where
  playing : Bool
  paused : Bool
  position : ℚ
  duration : ℚ

/-- The JSON body written by `statusHandler`. -/
structure StatusResp where
  playing : Bool
  paused : Bool
  itemId : Str
  position : ℚ
  duration : ℚ

/-- The response computation of `statusHandler` from `main.go`:
`tracked` is `currentPlayer != nil` (the source of truth for `playing`),
`itemId` the tracked item, and `mpv` the result of the IPC query
`getMpvPlaybackInfo` (`none` when it failed; the error is discarded and
the zero value used, exactly as the Go code ignores the error).  The
handler always answers 200 with this body; it has no error path. -/
def statusResponse (tracked : Bool) (itemId : Str) (mpv : Option MpvStatus) : StatusResp :=
  if ¬tracked then
    { playing := false, paused := false, itemId := itemId, position := 0, duration := 0 }
  else
    let ms := mpv.getD { playing := false, paused := false, position := 0, duration := 0 }
    { playing := true, paused := ms.paused, itemId := itemId
      position := ms.position, duration := ms.duration }

/-! ## playHandler: resume query and player argument list -/

/-- The query parameters of `GET /api/play` used by the resume logic. -/
structure PlayQuery where
  path : Str
  itemId : Str
  serverUrl : Str
  userId : Str
  token : Str
  resume : Str

/-- The guard in `playHandler` deciding whether `getStoredPosition` is
called: `resume == "1"` and server URL, user id, token and item id all
non-empty. -/
def resumeQueryMade (q : PlayQuery) : Bool :=
  q.resume = str "1" && q.serverUrl ≠ [] && q.userId ≠ [] && q.token ≠ [] && q.itemId ≠ []

/-- The `startSeconds` value computed by `playHandler`: the stored
position returned by the media server (a parameter here, standing for the
network reply) when the resume query was made and the position is
positive; zero otherwise. -/
def playStartSeconds (q : PlayQuery) (storedPosition : ℚ) : ℚ :=
  if resumeQueryMade q then
    if storedPosition > 0 then storedPosition else 0
  else 0

/-- Decimal digits of `n`. -/
def natDigits (n : Nat) : Str := Nat.toDigits 10 n

/-- Rounding to the nearest integer, ties to even (the rounding of Go's
`fmt` `%.1f`, with the `float64` modelled as a rational). -/
def roundTiesEven (x : ℚ) : Int :=
  let f := Rat.floor x
  let r := x - f
  if r < 1/2 then f
  else if 1/2 < r then f + 1
  else if f % 2 = 0 then f else f + 1

/-- Go `fmt.Sprintf("%.1f", q)`. -/
def fmt1f (q : ℚ) : Str :=
  let n := roundTiesEven (q * 10)
  let render := fun (m : Nat) => natDigits (m / 10) ++ '.' :: natDigits (m % 10)
  if n < 0 then '-' :: render n.natAbs else render n.natAbs

/-- The resume argument `fmt.Sprintf("--start=%.1f", startSeconds)`. -/
def startArg (startSeconds : ℚ) : Str := str "--start=" ++ fmt1f startSeconds

/-- The player argument list built by `playHandler`: the configured base
arguments; then, only when the selected player key is "mpv", the IPC
socket argument and — if `startSeconds > 0` — the `--start` argument; and
finally the (possibly URL-encoded) path. -/
def buildPlayerArgs (playerKey : Str) (baseArgs : List Str) (ipcPath : Str)
    (startSeconds : ℚ) (pathForPlayer : Str) : List Str :=
  let args := baseArgs
  let args :=
    if playerKey = str "mpv" then
      let a := args ++ [str "--input-ipc-server=" ++ ipcPath]
      if startSeconds > 0 then a ++ [startArg startSeconds] else a
    else args
  args ++ [pathForPlayer]

/-! ## The playlist sequencer (`monitorPlaylist`) -/

/-- The state read and written by one iteration of `monitorPlaylist`'s
poll loop: the loop-local `lastPos` and the shared session fields. -/
structure MonitorSt where
  lastPos : Int
  playlistPosition : Int
  playerItemId : Str
  lastPosition : ℚ
  videoDuration : ℚ

/-- A progress-report call issued by the sequencer. -/
inductive RepEvent where
  | stop
  | start
deriving DecidableEq

/-- One tick of `monitorPlaylist`'s poll loop from `main.go`.  `plist` is
the playlist snapshot, `ipcPath` the IPC socket path (an empty path skips
the tick), and `obs` the `playlist-pos` value read over IPC (`none` when
the query failed or did not return a number — the tick is skipped).  When
the observed index differs from `lastPos`, is non-negative and is in
range, the previous item is marked complete (position set to its full
duration, stop reported), the session advances to the new item (position
and duration reset), a start is reported and `lastPos` is updated. -/
def monitorTick (plist : List PlaylistItem) (ipcPath : Str) (st : MonitorSt)
    (obs : Option ℚ) : MonitorSt × List RepEvent :=
  if ipcPath = [] then (st, [])
  else
    match obs with
    | none => (st, [])
    | some posInt =>
      let newPos := goTrunc posInt
      if newPos ≠ st.lastPos ∧ 0 ≤ newPos then
        if newPos < (plist.length : Int) then
          let stEv :=
            if 0 ≤ st.lastPos ∧ st.lastPos < (plist.length : Int) then
              ({ st with
                  playerItemId :=
                    (plist.getD st.lastPos.toNat { path := [], itemId := [] }).itemId
                  lastPosition := st.videoDuration }, [RepEvent.stop])
            else (st, ([] : List RepEvent))
          let st2 := stEv.1
          let st3 :=
            { st2 with
                playlistPosition := newPos
                playerItemId := (plist.getD newPos.toNat { path := [], itemId := [] }).itemId
                lastPosition := 0
                videoDuration := 0
                lastPos := newPos }
          (st3, stEv.2 ++ [RepEvent.start])
        else (st, [])
      else (st, [])

/-! ## Helper lemmas -/

theorem applyMapping_nomatch (p : Str) (m : PathMapping)
    (h : (applyMapping p m).2 = false) : applyMapping p m = (p, false) := by
  revert h
  unfold applyMapping
  repeat' split
  all_goals intro h
  all_goals simp_all

theorem translatePath_cons_nomatch (p : Str) (m : PathMapping) (rest : List PathMapping)
    (h : (applyMapping p m).2 = false) :
    translatePath p (m :: rest) = translatePath p rest := by
  simp [translatePath, h]

theorem translatePath_cons_match (p : Str) (m : PathMapping) (rest : List PathMapping)
    (h : (applyMapping p m).2 = true) :
    translatePath p (m :: rest) = backslashed (applyMapping p m).1 := by
  simp [translatePath, h]

theorem translatePath_append_nomatch (p : Str) (pre post : List PathMapping)
    (h : ∀ m ∈ pre, (applyMapping p m).2 = false) :
    translatePath p (pre ++ post) = translatePath p post := by
  induction pre with
  | nil => rfl
  | cons x xs ih =>
    rw [List.cons_append, translatePath_cons_nomatch p x (xs ++ post) (h x (by simp))]
    exact ih (fun m hm => h m (by simp [hm]))

/-! ## The claims -/

/-- Claim C1: for every path `p` and prefix rule with pattern `m` and
replacement `r`, if `p` starts with `m` then translating `p` through that
rule yields `r` concatenated with the remainder of `p` after `m`, with
every forward slash then converted to a backslash; if `p` does not start
with `m`, `applyMapping` returns the path unchanged and unmatched. -/
theorem claim_C1 (p m r : Str) :
    (goStartsWith p m = true →
      translatePath p [{ ptype := str "prefix", pmatch := m, replace := r }] =
        backslashed (r ++ p.drop m.length)) ∧
    (goStartsWith p m = false →
      applyMapping p { ptype := str "prefix", pmatch := m, replace := r } = (p, false)) := by
  constructor
  · intro h
    simp [translatePath, applyMapping, h]
  · intro h
    simp [applyMapping, h]

/-- Witness for C1 at concrete inputs: a matching and a non-matching
prefix rule. -/
theorem claim_C1_witness :
    translatePath (str "/mnt/movies/Foo.mkv")
        [{ ptype := str "prefix", pmatch := str "/mnt/movies", replace := str "Z:" }] =
      backslashed (str "Z:" ++ (str "/mnt/movies/Foo.mkv").drop (str "/mnt/movies").length) ∧
    applyMapping (str "/opt/x")
        { ptype := str "prefix", pmatch := str "/mnt/movies", replace := str "Z:" } =
      (str "/opt/x", false) :=
  ⟨(claim_C1 (str "/mnt/movies/Foo.mkv") (str "/mnt/movies") (str "Z:")).1 (by decide),
   (claim_C1 (str "/opt/x") (str "/mnt/movies") (str "Z:")).2 (by decide)⟩

/-- Claim C2: rules are evaluated strictly in list order; the first
matching rule determines the output and the rules after it never
influence the result (replacing them with any other list gives the same
output). -/
theorem claim_C2 (p : Str) (pre : List PathMapping) (m : PathMapping)
    (rest rest' : List PathMapping)
    (hpre : ∀ m' ∈ pre, (applyMapping p m').2 = false)
    (hm : (applyMapping p m).2 = true) :
    translatePath p (pre ++ m :: rest) = backslashed (applyMapping p m).1 ∧
    translatePath p (pre ++ m :: rest) = translatePath p (pre ++ m :: rest') := by
  have h1 : translatePath p (pre ++ m :: rest) = backslashed (applyMapping p m).1 := by
    rw [translatePath_append_nomatch p pre (m :: rest) hpre,
      translatePath_cons_match p m rest hm]
  have h2 : translatePath p (pre ++ m :: rest') = backslashed (applyMapping p m).1 := by
    rw [translatePath_append_nomatch p pre (m :: rest') hpre,
      translatePath_cons_match p m rest' hm]
  exact ⟨h1, h1.trans h2.symm⟩

/-- Witness for C2: two rules that both match; the output is the first
one's result, and dropping the second rule does not change it. -/
theorem claim_C2_witness :
    translatePath (str "/mnt/a")
        [{ ptype := str "prefix", pmatch := str "/mnt", replace := str "X:" },
         { ptype := str "prefix", pmatch := str "/", replace := str "Y:" }] =
      backslashed (applyMapping (str "/mnt/a")
        { ptype := str "prefix", pmatch := str "/mnt", replace := str "X:" }).1 ∧
    translatePath (str "/mnt/a")
        [{ ptype := str "prefix", pmatch := str "/mnt", replace := str "X:" },
         { ptype := str "prefix", pmatch := str "/", replace := str "Y:" }] =
      translatePath (str "/mnt/a")
        [{ ptype := str "prefix", pmatch := str "/mnt", replace := str "X:" }] :=
  claim_C2 (str "/mnt/a") []
    { ptype := str "prefix", pmatch := str "/mnt", replace := str "X:" }
    [{ ptype := str "prefix", pmatch := str "/", replace := str "Y:" }] []
    (by decide) (by decide)

/-- Claim C3: `translatePath` equals the slash-to-backslash conversion
applied exactly once, after the rule-substitution stage (which matches
rules against the original forward-slash path); when no rule matches, the
output is the input with only that conversion applied. -/
theorem claim_C3 (p : Str) (ms : List PathMapping) :
    translatePath p ms = backslashed (firstMatchResult p ms) ∧
    ((∀ m ∈ ms, (applyMapping p m).2 = false) → translatePath p ms = backslashed p) := by
  constructor
  · induction ms with
    | nil => rfl
    | cons x xs ih =>
      by_cases hx : (applyMapping p x).2 = true
      · rw [translatePath_cons_match p x xs hx]
        simp [firstMatchResult, hx]
      · rw [Bool.not_eq_true] at hx
        rw [translatePath_cons_nomatch p x xs hx, ih]
        simp [firstMatchResult, hx]
  · intro h
    have h2 := translatePath_append_nomatch p ms [] h
    rw [List.append_nil] at h2
    exact h2

/-- Witness for C3 at a concrete non-matching rule list. -/
theorem claim_C3_witness :
    translatePath (str "/a/b") [{ ptype := str "prefix", pmatch := str "/x", replace := str "Z" }] =
      backslashed (firstMatchResult (str "/a/b")
        [{ ptype := str "prefix", pmatch := str "/x", replace := str "Z" }]) ∧
    translatePath (str "/a/b") [{ ptype := str "prefix", pmatch := str "/x", replace := str "Z" }] =
      backslashed (str "/a/b") :=
  ⟨(claim_C3 (str "/a/b")
      [{ ptype := str "prefix", pmatch := str "/x", replace := str "Z" }]).1,
   (claim_C3 (str "/a/b")
      [{ ptype := str "prefix", pmatch := str "/x", replace := str "Z" }]).2 (by decide)⟩

theorem take_of_le_takeWhile {α : Type} (q : α → Bool) :
    ∀ (s : List α) (i : Nat), i ≤ (s.takeWhile q).length → ∀ c ∈ s.take i, q c := by
  intro s
  induction s with
  | nil => intro i _ c hc; simp at hc
  | cons c0 s' ih =>
    intro i hi c hc
    by_cases hq : q c0
    · cases i with
      | zero => simp at hc
      | succ j =>
        rw [List.takeWhile_cons_of_pos hq] at hi
        simp only [List.length_cons, Nat.succ_le_succ_iff] at hi
        rw [List.take_succ_cons] at hc
        rcases List.mem_cons.mp hc with h | h
        · exact h ▸ hq
        · exact ih j hi c h
    · rw [List.takeWhile_cons_of_neg hq] at hi
      simp only [List.length_nil, Nat.le_zero] at hi
      subst hi
      simp at hc


theorem wildcardToTokens_star_count :
    ∀ pat : Str,
      2 * (wildcardToTokens pat).count RTok.dstar + (wildcardToTokens pat).count RTok.star =
        pat.count '*' := by
  intro pat
  induction pat using wildcardToTokens.induct with
  | case1 => rfl
  | case2 rest ih =>
    simp only [wildcardToTokens]
    rw [List.count_cons_self, List.count_cons_of_ne (by simp), List.count_cons_self,
      List.count_cons_self]
    omega
  | case3 rest ih =>
    simp only [wildcardToTokens]
    rw [List.count_cons_of_ne (by simp), List.count_cons_self, List.count_cons_self]
    omega
  | case4 c rest h1 h2 ih =>
    have hc : '*' ≠ c := fun he => h2 he.symm
    simp only [wildcardToTokens]
    rw [List.count_cons_of_ne (by simp), List.count_cons_of_ne (by simp),
      List.count_cons_of_ne hc]
    omega

theorem runToks_no_caps (ts : List RTok) :
    ∀ (s : Str) (caps : List Str) (rem : Str),
      ts.count RTok.star = 0 → ts.count RTok.dstar = 0 →
      runToks ts s = some (caps, rem) → caps = [] := by
  induction ts with
  | nil =>
    intro s caps rem _ _ h
    unfold runToks at h
    split at h
    · exact absurd h (by simp)
    · injection h with h'
      injection h' with h1 h2
      exact h1.symm
  | cons t ts ih =>
    intro s caps rem hs hd h
    cases t with
    | lit c =>
      rw [List.count_cons_of_ne (by simp)] at hs
      rw [List.count_cons_of_ne (by simp)] at hd
      cases s with
      | nil => simp [runToks] at h
      | cons c2 rest =>
        simp only [runToks] at h
        split at h
        · exact ih rest caps rem hs hd h
        · exact absurd h (by simp)
    | star => rw [List.count_cons_self] at hs; omega
    | dstar => rw [List.count_cons_self] at hd; omega

theorem runToks_one_star (ts : List RTok) :
    ∀ (s : Str) (caps : List Str) (rem : Str),
      ts.count RTok.star = 1 → ts.count RTok.dstar = 0 →
      runToks ts s = some (caps, rem) →
      ∃ seg, caps = [seg] ∧ ∀ c ∈ seg, c ≠ '/' := by
  induction ts with
  | nil =>
    intro s caps rem hs _ _
    simp at hs
  | cons t ts ih =>
    intro s caps rem hs hd h
    cases t with
    | lit c =>
      rw [List.count_cons_of_ne (by simp)] at hs
      rw [List.count_cons_of_ne (by simp)] at hd
      cases s with
      | nil => simp [runToks] at h
      | cons c2 rest =>
        simp only [runToks] at h
        split at h
        · exact ih rest caps rem hs hd h
        · exact absurd h (by simp)
    | star =>
      rw [List.count_cons_self] at hs
      rw [List.count_cons_of_ne (by simp)] at hd
      have hs0 : ts.count RTok.star = 0 := by omega
      simp only [runToks] at h
      obtain ⟨pr, hpr, hf⟩ := List.exists_of_findSome?_eq_some h
      cases hrt : runToks ts pr.2 with
      | none => rw [hrt] at hf; exact absurd hf (by simp)
      | some pc =>
        obtain ⟨caps0, rem0⟩ := pc
        rw [hrt] at hf
        injection hf with hf'
        injection hf' with hf1 hf2
        subst hf1
        subst hf2
        have hcaps0 : caps0 = [] := runToks_no_caps ts pr.2 caps0 rem0 hs0 hd hrt
        refine ⟨pr.1, by rw [hcaps0], ?_⟩
        simp only [starSplits, List.mem_map, List.mem_reverse, List.mem_range] at hpr
        obtain ⟨i, hle, hpr'⟩ := hpr
        have hseg : pr.1 = (s.take i : Str) := by rw [← hpr']
        intro c hc
        have hq := take_of_le_takeWhile (fun c => decide (c ≠ '/')) s i (by omega) c (hseg ▸ hc)
        simpa using hq
    | dstar =>
      rw [List.count_cons_self] at hd
      omega

/-- Claim C4: for a wildcard pattern containing exactly one `*` (hence no
`**`), on any path the compiled pattern matches, the substring captured
by the `*` contains no separator `/`. -/
theorem claim_C4 (pat p : Str) (caps : List Str) (rem : Str)
    (hcount : pat.count '*' = 1)
    (hmatch : runToks (wildcardToTokens pat) p = some (caps, rem)) :
    ∃ seg, caps = [seg] ∧ ∀ c ∈ seg, c ≠ '/' := by
  have hwc := wildcardToTokens_star_count pat
  rw [hcount] at hwc
  exact runToks_one_star (wildcardToTokens pat) p caps rem (by omega) (by omega) hmatch

/-- Witness for C4 at a concrete matching wildcard pattern. -/
theorem claim_C4_witness :
    ∃ seg, [str "X"] = [seg] ∧ ∀ c ∈ seg, c ≠ '/' :=
  claim_C4 (str "a*b") (str "aXbZZ") [str "X"] (str "ZZ") (by decide) (by decide)

/-- Claim C5: a rule whose regex pattern fails to compile — and more
generally any rule reported as non-matching, which is how `applyMapping`
treats every pattern-compilation failure — returns the path unchanged
with `matched = false`, and `translatePath` produces the same output as
with that rule deleted from the list; translation is never aborted. -/
theorem claim_C5 (p : Str) (pre post : List PathMapping) (m : PathMapping)
    (h : (m.ptype = str "regex" ∧ regexpCompile m.pmatch = none) ∨
      (applyMapping p m).2 = false) :
    applyMapping p m = (p, false) ∧
    translatePath p (pre ++ m :: post) = translatePath p (pre ++ post) := by
  have hfalse : applyMapping p m = (p, false) := by
    rcases h with ⟨ht, hc⟩ | hf
    · unfold applyMapping
      rw [ht, if_neg (by decide), if_neg (by decide), if_pos rfl, hc]
    · exact applyMapping_nomatch p m hf
  refine ⟨hfalse, ?_⟩
  induction pre with
  | nil =>
    simpa using translatePath_cons_nomatch p m post (by rw [hfalse])
  | cons x xs ih =>
    by_cases hx : (applyMapping p x).2 = true
    · rw [List.cons_append, List.cons_append, translatePath_cons_match p x (xs ++ m :: post) hx,
        translatePath_cons_match p x (xs ++ post) hx]
    · rw [Bool.not_eq_true] at hx
      rw [List.cons_append, List.cons_append, translatePath_cons_nomatch p x (xs ++ m :: post) hx,
        translatePath_cons_nomatch p x (xs ++ post) hx]
      exact ih

/-- Witness for C5: the invalid regex pattern `[` (unclosed character
class) is skipped and translation proceeds as if the rule were absent. -/
theorem claim_C5_witness :
    applyMapping (str "/a/b") { ptype := str "regex", pmatch := str "[", replace := str "Z" } =
      (str "/a/b", false) ∧
    translatePath (str "/a/b")
        ([{ ptype := str "prefix", pmatch := str "/x", replace := str "Q" }] ++
          { ptype := str "regex", pmatch := str "[", replace := str "Z" } ::
            [{ ptype := str "prefix", pmatch := str "/a", replace := str "R" }]) =
      translatePath (str "/a/b")
        ([{ ptype := str "prefix", pmatch := str "/x", replace := str "Q" }] ++
          [{ ptype := str "prefix", pmatch := str "/a", replace := str "R" }]) :=
  claim_C5 (str "/a/b")
    [{ ptype := str "prefix", pmatch := str "/x", replace := str "Q" }]
    [{ ptype := str "prefix", pmatch := str "/a", replace := str "R" }]
    { ptype := str "regex", pmatch := str "[", replace := str "Z" }
    (Or.inl ⟨rfl, by decide⟩)

/-- Counterexample to claim C6: with a two-item playlist and observed
`playlist-pos` values 1 then 0 (mpv permits backward playlist
navigation), the sequencer's update loop assigns `playlistPosition` the
value 0 after it was 1 — the index decreases. -/
theorem claim_C6_counterexample :
    (monitorTick [{ path := str "a", itemId := str "A" }, { path := str "b", itemId := str "B" }]
        (str "sock")
        ((monitorTick
            [{ path := str "a", itemId := str "A" }, { path := str "b", itemId := str "B" }]
            (str "sock")
            { lastPos := 0, playlistPosition := 0, playerItemId := str "A",
              lastPosition := 0, videoDuration := 0 }
            (some 1)).1)
        (some 0)).1.playlistPosition <
      ((monitorTick
          [{ path := str "a", itemId := str "A" }, { path := str "b", itemId := str "B" }]
          (str "sock")
          { lastPos := 0, playlistPosition := 0, playerItemId := str "A",
            lastPosition := 0, videoDuration := 0 }
          (some 1)).1).playlistPosition := by
  decide

/-- Claim C6 as amended: the sequencer adopts any observed in-range
playlist position that differs from the last observed one — including a
smaller one, so `playlistIndex` is not unconditionally monotonic; it is
non-decreasing whenever the observed `playlist-pos` values are
non-decreasing (and the loop keeps `playlistPosition = lastPos` in sync).
(Session teardown on player exit separately resets the index to zero.) -/
theorem claim_C6_amended (plist : List PlaylistItem) (ipc : Str) (st : MonitorSt)
    (obs : Option ℚ)
    (hinv : st.playlistPosition = st.lastPos)
    (hobs : ∀ q, obs = some q → st.lastPos ≤ goTrunc q) :
    st.playlistPosition ≤ (monitorTick plist ipc st obs).1.playlistPosition ∧
    (monitorTick plist ipc st obs).1.playlistPosition =
      (monitorTick plist ipc st obs).1.lastPos := by
  unfold monitorTick
  split
  · exact ⟨le_refl _, hinv⟩
  · match obs with
    | none => exact ⟨le_refl _, hinv⟩
    | some q =>
      have hq := hobs q rfl
      simp only
      split
      · split
        · constructor
          · simpa [hinv] using hq
          · rfl
        · exact ⟨le_refl _, hinv⟩
      · exact ⟨le_refl _, hinv⟩

/-- Witness for the amended C6 at a concrete forward transition. -/
theorem claim_C6_amended_witness :
    (0 : Int) ≤ (monitorTick
        [{ path := str "a", itemId := str "A" }, { path := str "b", itemId := str "B" }]
        (str "sock")
        { lastPos := 0, playlistPosition := 0, playerItemId := str "A",
          lastPosition := 0, videoDuration := 0 }
        (some 1)).1.playlistPosition ∧
      (monitorTick
          [{ path := str "a", itemId := str "A" }, { path := str "b", itemId := str "B" }]
          (str "sock")
          { lastPos := 0, playlistPosition := 0, playerItemId := str "A",
            lastPosition := 0, videoDuration := 0 }
          (some 1)).1.playlistPosition =
        (monitorTick
            [{ path := str "a", itemId := str "A" }, { path := str "b", itemId := str "B" }]
            (str "sock")
            { lastPos := 0, playlistPosition := 0, playerItemId := str "A",
              lastPosition := 0, videoDuration := 0 }
            (some 1)).1.lastPos :=
  claim_C6_amended
    [{ path := str "a", itemId := str "A" }, { path := str "b", itemId := str "B" }]
    (str "sock")
    { lastPos := 0, playlistPosition := 0, playerItemId := str "A",
      lastPosition := 0, videoDuration := 0 }
    (some 1) rfl
    (fun q hq => by
      injection hq with h
      rw [← h]
      decide)

/-- Counterexample to claim C7: a play request with `resume=1` and all
credentials present, stored position 100 > 0, but the selected player is
"vlc" — the resume query is made, yet no argument of the launched player
starts with `--start=`: the start-offset argument is added only for the
"mpv" player key. -/
theorem claim_C7_counterexample :
    resumeQueryMade
        { path := str "/m/f.mkv", itemId := str "it1", serverUrl := str "http://s",
          userId := str "u1", token := str "tok", resume := str "1" } = true ∧
    (100 : ℚ) > 0 ∧
    (buildPlayerArgs (str "vlc") [str "--fullscreen"] []
        (playStartSeconds
          { path := str "/m/f.mkv", itemId := str "it1", serverUrl := str "http://s",
            userId := str "u1", token := str "tok", resume := str "1" } 100)
        (str "p")).all
      (fun a => !goStartsWith a (str "--start=")) = true := by
  refine ⟨by decide, by norm_num, by decide⟩

/-- Claim C7 as amended: `resume=1` with server URL, user id, token and
item id all present triggers the stored-position query; when the query
returns a positive position **and the selected player is mpv**, the
player is launched with `--start=` set to that position (formatted with
one decimal); with resume absent or not "1" no query is made and the
start offset is zero, adding no `--start` argument; players other than
mpv never receive a start-offset argument. -/
theorem claim_C7_amended (q : PlayQuery) (stored : ℚ) (base : List Str) (ipc p : Str) :
    (resumeQueryMade q = true ↔
      (q.resume = str "1" ∧ q.serverUrl ≠ [] ∧ q.userId ≠ [] ∧ q.token ≠ [] ∧
        q.itemId ≠ [])) ∧
    (resumeQueryMade q = true → stored > 0 →
      buildPlayerArgs (str "mpv") base ipc (playStartSeconds q stored) p =
        base ++ [str "--input-ipc-server=" ++ ipc, startArg stored, p]) ∧
    (resumeQueryMade q = false → playStartSeconds q stored = 0) ∧
    (∀ pk, pk ≠ str "mpv" →
      buildPlayerArgs pk base ipc (playStartSeconds q stored) p = base ++ [p]) ∧
    buildPlayerArgs (str "mpv") base ipc 0 p =
      base ++ [str "--input-ipc-server=" ++ ipc, p] := by
  refine ⟨?_, ?_, ?_, ?_, ?_⟩
  · simp only [resumeQueryMade, Bool.and_eq_true, decide_eq_true_eq, bne_iff_ne, ne_eq,
      and_assoc]
  · intro hq hpos
    simp only [playStartSeconds, hq, if_true, if_pos hpos]
    simp [buildPlayerArgs, startArg, hpos, ne_of_gt hpos]
  · intro hq
    simp [playStartSeconds, hq]
  · intro pk hpk
    simp [buildPlayerArgs, hpk]
  · simp [buildPlayerArgs]

/-- Witness for the amended C7: with mpv selected and a positive stored
position the `--start` argument appears; with `resume=0` the start
offset is zero. -/
theorem claim_C7_amended_witness :
    buildPlayerArgs (str "mpv") [str "--fs"] (str "/tmp/sock")
        (playStartSeconds
          { path := str "/m/f.mkv", itemId := str "it1", serverUrl := str "http://s",
            userId := str "u1", token := str "tok", resume := str "1" } 100)
        (str "p") =
      [str "--fs"] ++ [str "--input-ipc-server=" ++ str "/tmp/sock", startArg 100, str "p"] ∧
    playStartSeconds
        { path := str "/m/f.mkv", itemId := str "it1", serverUrl := str "http://s",
          userId := str "u1", token := str "tok", resume := str "0" } 100 = 0 :=
  ⟨(claim_C7_amended
      { path := str "/m/f.mkv", itemId := str "it1", serverUrl := str "http://s",
        userId := str "u1", token := str "tok", resume := str "1" }
      100 [str "--fs"] (str "/tmp/sock") (str "p")).2.1 (by decide) (by norm_num),
   (claim_C7_amended
      { path := str "/m/f.mkv", itemId := str "it1", serverUrl := str "http://s",
        userId := str "u1", token := str "tok", resume := str "0" }
      100 [str "--fs"] (str "/tmp/sock") (str "p")).2.2.1 (by decide)⟩

/-- Claim C8: with no tracked process the status endpoint answers
`playing = false` with zero position and duration (and no error — the
response is total); in every state the `playing` field equals exactly
the "a process handle is tracked" predicate, independent of the IPC
query's outcome. -/
theorem claim_C8 (itemId : Str) (mpv mpv' : Option MpvStatus) (tracked : Bool) :
    statusResponse false itemId mpv =
      { playing := false, paused := false, itemId := itemId, position := 0, duration := 0 } ∧
    (statusResponse tracked itemId mpv).playing = tracked ∧
    (statusResponse tracked itemId mpv).playing = (statusResponse tracked itemId mpv').playing := by
  refine ⟨rfl, ?_, ?_⟩ <;> cases tracked <;> simp [statusResponse]

/-- Claim C9: a prefix rule with an empty pattern matches every path
(yielding replacement ++ path), so it short-circuits every rule after it;
in particular the built-in default configuration's two empty prefix
mappings make the default translation exactly the slash-to-backslash
conversion. -/
theorem claim_C9 (p r : Str) (rest : List PathMapping) :
    applyMapping p { ptype := str "prefix", pmatch := [], replace := r } = (r ++ p, true) ∧
    translatePath p ({ ptype := str "prefix", pmatch := [], replace := r } :: rest) =
      backslashed (r ++ p) ∧
    translatePath p defaultConfig.pathMappings = backslashed p := by
  refine ⟨?_, ?_, ?_⟩
  · simp [applyMapping, goStartsWith]
  · simp [translatePath, applyMapping, goStartsWith]
  · simp [defaultConfig, translatePath, applyMapping, goStartsWith]

/-- Claim C10: the playback start and stop reports are skipped exactly
when the session's item id, server URL or auth token is empty (any one of
the three suffices — not only when all are empty); the user id is never
consulted; with all three non-empty the report is attempted. -/
theorem claim_C10 (s : EmbySession) (u : Str) :
    ((reportPlaybackStart s).isSome ↔
      (s.playerItemId ≠ [] ∧ s.embyServerURL ≠ [] ∧ s.embyToken ≠ [])) ∧
    ((reportPlaybackStopped s).isSome ↔
      (s.playerItemId ≠ [] ∧ s.embyServerURL ≠ [] ∧ s.embyToken ≠ [])) ∧
    reportPlaybackStart { s with embyUserId := u } = reportPlaybackStart s ∧
    reportPlaybackStopped { s with embyUserId := u } = reportPlaybackStopped s := by
  refine ⟨?_, ?_, rfl, rfl⟩ <;>
    · simp only [reportPlaybackStart, reportPlaybackStopped]
      split
      · next h => simp [Option.isSome]; tauto
      · next h =>
        push_neg at h
        simp [Option.isSome]
        tauto
